import Mathlib

/-!
Verification of the cansentinel CAN bus-off monitoring daemon.

We give a shallow embedding of the core of the program:
- the data model (`CanInterfaceInfo`, `BusEvent`, `Config`, ...),
- the per-message classification logic of the Link-State Monitor
  (`src/monitoring/netlink.rs`) and of the Error-Frame Monitor
  (`src/monitoring/error_frame.rs`),
- the retry/backoff control flow of the Error-Frame Monitor's outer loop,
- a small-step interleaving semantics of the Restart Coordinator
  (`src/restart.rs`): `schedule_restart` is split into its read-lock check
  and its write-lock section (re-check + spawn + insert), spawned
  delayed-restart actions are tasks stepping through
  sleeping → removed-own-entry → restart, and `cancel_restart` is one
  atomic write-lock step.  Each critical section guarded by the RwLock is
  one atomic step of the relation; arbitrary interleavings of calls and
  tasks are allowed.
-/

namespace Cansentinel

/-! ## Data model (`src/interface.rs`, `src/events.rs`, `src/config.rs`) -/

/-- `CanInterfaceInfo` from `src/interface.rs`: kernel interface index and
human-readable name. -/
structure CanInterfaceInfo where
  idx : Nat
  name : String
deriving DecidableEq

/-- `socketcan::nl::CanState`: the CAN controller states reported via the
netlink link-info attribute (Linux `can_state`). -/
inductive CanState where
  | errorActive
  | errorWarning
  | errorPassive
  | busOff
  | stopped
  | sleeping
deriving DecidableEq

/-- `socketcan::CanError`: the classification of a CAN error frame, as
matched in `src/monitoring/error_frame.rs`. -/
inductive CanError where
  | transmitTimeout
  | lostArbitration (bit : Nat)
  | controllerProblem (problem : Nat)
  | protocolViolation (vtype location : Nat)
  | transceiverError
  | noAck
  | busOff
  | busError
  | restarted
  | unknown (code : Nat)
deriving DecidableEq

/-- `socketcan::CanErrorFrame`, abstracted to the error classification its
payload decodes to via `into_error()`. -/
structure CanErrorFrame where
  err : CanError
deriving DecidableEq

/-- `frame.into_error()` from socketcan. -/
def CanErrorFrame.into_error (f : CanErrorFrame) : CanError := f.err

/-- `BusEventType` from `src/events.rs`. -/
inductive BusEventType where
  | busOff
  | restart
  | stopped
deriving DecidableEq

/-- `BusEventSource` from `src/events.rs`. -/
inductive BusEventSource where
  | errorFrame (frame : CanErrorFrame)
  | stateUpdate (state : CanState)
deriving DecidableEq

/-- `BusEvent` from `src/events.rs`. -/
structure BusEvent where
  interface : CanInterfaceInfo
  event_type : BusEventType
  event_source : BusEventSource
deriving DecidableEq

/-- `BusEvent::bus_off`. -/
def BusEvent.bus_off (interface : CanInterfaceInfo) (event_source : BusEventSource) : BusEvent :=
  ⟨interface, .busOff, event_source⟩

/-- `BusEvent::restart`. -/
def BusEvent.restart (interface : CanInterfaceInfo) (event_source : BusEventSource) : BusEvent :=
  ⟨interface, .restart, event_source⟩

/-- `BusEvent::stopped`. -/
def BusEvent.stopped (interface : CanInterfaceInfo) (event_source : BusEventSource) : BusEvent :=
  ⟨interface, .stopped, event_source⟩

/-- `BusEvent::is_restart`. -/
def BusEvent.is_restart (e : BusEvent) : Bool := e.event_type == .restart

/-- `Config` from `src/config.rs`; `bus_off_timeout` is the
`Duration` measured in milliseconds. -/
structure Config where
  bus_off_timeout : Nat
  interface_names : List String
deriving DecidableEq

/-- `Config::default()` from `src/config.rs`:
`Duration::from_millis(1000)` and no interface names. -/
def Config.default : Config :=
  { bus_off_timeout := 1000
    interface_names := [] }

/-- `Config::with_interfaces`. -/
def Config.with_interfaces (interface_names : List String) : Config :=
  { Config.default with interface_names := interface_names }

/-- `Config::with_timeout`. -/
def Config.with_timeout (c : Config) (timeout : Nat) : Config :=
  { c with bus_off_timeout := timeout }

/-- `ARPHRD_CAN` (`src/lib.rs` / `nix::libc`): netlink hardware type for
CAN devices. -/
def ARPHRD_CAN : Nat := 280

/-! ## Error-Frame Monitor classification (`src/monitoring/error_frame.rs`)

The inner read loop of `monitor_interface_errors` matches
`frame.into_error()` and emits a `BusOff` event for `CanError::BusOff`, a
`Restart` event for `CanError::Restarted`, and nothing otherwise. -/

/-- The event (if any) emitted by `monitor_interface_errors` for one
received error frame. -/
def classifyErrorFrame (interface : CanInterfaceInfo) (frame : CanErrorFrame) :
    Option BusEvent :=
  match frame.into_error with
  | .busOff => some (BusEvent.bus_off interface (.errorFrame frame))
  | .restarted => some (BusEvent.restart interface (.errorFrame frame))
  | _ => none

/-! ## Link-State Monitor classification (`src/monitoring/netlink.rs`) -/

/-- The state-to-event dispatch of `monitor_netlink`: `BusOff` state gives
a `BusOff` event, `Stopped` gives `Stopped`, any other decoded state
(or an absent state) gives no event — restarted transitions reported via
netlink are deliberately distrusted. -/
def netlinkStateEvent (interface : CanInterfaceInfo) (state : Option CanState) :
    Option BusEvent :=
  match state with
  | some .busOff => some (BusEvent.bus_off interface (.stateUpdate .busOff))
  | some .stopped => some (BusEvent.stopped interface (.stateUpdate .stopped))
  | _ => none

/-! ## Netlink message processing (`src/monitoring/netlink.rs`)

`monitor_netlink` first collects the watched interface indices into a
sorted vector, then for each decoded link message checks the hardware
type against `ARPHRD_CAN` and the index against the sorted vector with a
binary search, and finally dispatches on the decoded controller state. -/

/-- A decoded rtnetlink `Ifinfomsg` as consumed by `monitor_netlink`:
hardware type, interface index (after the `as u32` cast), the `IFLA_IFNAME`
attribute when present, and the CAN controller state decoded from the
nested link-info attribute when present. -/
structure Ifinfomsg where
  ifi_type : Nat
  ifi_index : Nat
  ifname : Option String
  state : Option CanState
deriving DecidableEq

/-- The sorted watch list built at the top of `monitor_netlink`:
`interfaces.into_iter().map(|i| i.idx).collect()` followed by `sort()`.
`Vec::sort` is modelled by insertion sort (same sorted permutation). -/
def watchIndices (interfaces : List CanInterfaceInfo) : List Nat :=
  (interfaces.map (fun i => i.idx)).insertionSort (· ≤ ·)

/-- Recursion core of `slice::binary_search` over the index range
`[lo, hi)` of `l`, returning whether the probe hit (`is_ok()`). -/
def bsGo (l : List Nat) (x : Nat) (lo hi : Nat) : Bool :=
  if _h : lo < hi then
    if l.getD ((lo + hi) / 2) 0 = x then true
    else if l.getD ((lo + hi) / 2) 0 < x then bsGo l x ((lo + hi) / 2 + 1) hi
    else bsGo l x lo ((lo + hi) / 2)
  else false
termination_by hi - lo
decreasing_by
  · omega
  · omega

/-- `interfaces.binary_search(&idx).is_ok()` from `monitor_netlink`. -/
def binary_search (l : List Nat) (x : Nat) : Bool := bsGo l x 0 l.length

/-- Per-message logic of `monitor_netlink`: process only messages whose
hardware type is `ARPHRD_CAN` and whose index passes the binary search
against the sorted watch list; then dispatch on the decoded state.  The
interface name falls back to `"Unknown"` as in the source. -/
def processLinkMessage (watch : List Nat) (msg : Ifinfomsg) : Option BusEvent :=
  if msg.ifi_type == ARPHRD_CAN && binary_search watch msg.ifi_index then
    netlinkStateEvent ⟨msg.ifi_index, msg.ifname.getD "Unknown"⟩ msg.state
  else
    none

/-- One item yielded by the netlink message iterator:
a decoded message, a message whose payload failed to decode
(skipped by the `if let Ok(msg_payload)`), or an iterator error
(logged; the loop breaks). -/
inductive NlMsg where
  | ok (msg : Ifinfomsg)
  | badPayload
  | iterError
deriving DecidableEq

/-- The message loop of `monitor_netlink`: events emitted for a sequence
of iterator items (the channel is open throughout). -/
def runNetlinkLoop (watch : List Nat) : List NlMsg → List BusEvent
  | [] => []
  | .ok m :: rest => (processLinkMessage watch m).toList ++ runNetlinkLoop watch rest
  | .badPayload :: rest => runNetlinkLoop watch rest
  | .iterError :: _ => []

/-- Observable outcome of a `monitor_netlink` run. -/
structure NetlinkRun where
  events : List BusEvent
  logs : List String
deriving DecidableEq

/-- `monitor_netlink` from `src/monitoring/netlink.rs`, parameterised by
whether `NlSocketHandle::connect` succeeds and by the iterator items.
A Rust panic would be modelled as `Except.error`; this function has no
panic site, so every branch returns `Except.ok`.  On connect failure the
function logs and returns at once, before the message loop. -/
def monitor_netlink (interfaces : List CanInterfaceInfo) (connectOk : Bool)
    (msgs : List NlMsg) : Except String NetlinkRun :=
  if connectOk then
    .ok { events := runNetlinkLoop (watchIndices interfaces) msgs
          logs := ["Started netlink monitoring for CAN interfaces",
                   "Netlink monitoring thread finished"] }
  else
    .ok { events := [], logs := ["Failed to create netlink socket"] }

/-! ## Error-Frame Monitor retry loop (`src/monitoring/error_frame.rs`)

One iteration of the outer `loop` of `monitor_interface_errors`:
open the socket; on failure log and fall through to the 5-second sleep.
On success configure the filters; on failure log and `continue` — which
re-enters the outer loop at once, *skipping* the sleep at the bottom.
Otherwise run the inner read loop until a read error breaks back out,
then log and sleep.  The iteration is modelled up to the point the next
open attempt starts; `backoffMs` is the sleep performed before it
(`none` = the next attempt starts immediately).  The channel stays open
(the channel-closed return path is not involved in the retry policy). -/

/-- A frame delivered by `socket.read_frame()`: an error frame or any
other (ignored) frame. -/
inductive CanFrame where
  | error (frame : CanErrorFrame)
  | data
deriving DecidableEq

/-- Events emitted by the inner read loop for the frames read before the
read error that ends it. -/
def errorFrameEvents (interface : CanInterfaceInfo) (reads : List CanFrame) :
    List BusEvent :=
  reads.filterMap fun f =>
    match f with
    | .error ef => classifyErrorFrame interface ef
    | .data => none

/-- Observable outcome of one outer-loop iteration of
`monitor_interface_errors`. -/
structure IterationResult where
  events : List BusEvent
  logs : List String
  backoffMs : Option Nat
deriving DecidableEq

/-- One outer-loop iteration of `monitor_interface_errors`, parameterised
by whether `CanSocket::open` succeeds, whether the filter configuration
(`set_error_filter_accept_all` then `set_filter_drop_all`) succeeds, and
the frames read before the terminating read error. -/
def monitor_iteration (interface : CanInterfaceInfo) (openOk filterOk : Bool)
    (reads : List CanFrame) : IterationResult :=
  if openOk then
    if filterOk then
      { events := errorFrameEvents interface reads
        logs := ["Started error monitoring for interface: " ++ interface.name,
                 "Error reading from " ++ interface.name,
                 interface.name ++
                   ": failed to open socket for monitoring. retrying in 5 seconds..."]
        backoffMs := some 5000 }
    else
      { events := []
        logs := ["Failed to configure socket filters for " ++ interface.name]
        backoffMs := none }
  else
    { events := []
      logs := ["Failed to open error socket for " ++ interface.name,
               interface.name ++
                 ": failed to open socket for monitoring. retrying in 5 seconds..."]
      backoffMs := some 5000 }

/-! ## Restart Coordinator (`src/restart.rs`)

`RestartManager` holds `pending_tasks: Arc<RwLock<HashMap<u32, JoinHandle>>>`.
We model it with a small-step interleaving semantics.  Each critical
section guarded by the `RwLock` is one atomic step:

- `schedule_restart` performs a read-lock containment check
  (`readCheck`), then — as a separate later step — the write-lock section
  that re-checks, spawns the delayed action and inserts its handle
  (`writeSection`).  Between the two, other calls and tasks may run:
  precisely the race the second check closes.
- A spawned action sleeps, then in one write-lock step removes its table
  entry (`taskRemoveEntry`), and only afterwards performs the restart
  (`taskDoRestart`).
- `cancel_restart` is a single write-lock step: remove the entry for the
  index, if any, and abort the corresponding task (an aborted task takes
  no further steps, as `JoinHandle::abort` stops it at its next await
  point, before its removal/restart writes).

The table maps an interface index to the spawned task's identifier. -/

/-- Life-cycle phase of a spawned delayed-restart action. -/
inductive TaskPhase where
  | sleeping
  | removedEntry
  | finishedRestart
  | aborted
deriving DecidableEq

/-- A spawned delayed-restart action: the interface it will restart and
its current phase. -/
structure TaskState where
  iface : CanInterfaceInfo
  phase : TaskPhase
deriving DecidableEq

/-- Program counter of one in-progress `schedule_restart` call. -/
inductive CallPhase where
  | started
  | passedReadCheck
  | finished (inserted : Bool)
deriving DecidableEq

/-- One `schedule_restart` invocation. -/
structure CallState where
  iface : CanInterfaceInfo
  phase : CallPhase
deriving DecidableEq

/-- Point update of a partial map. -/
def upd {α : Type} (f : Nat → Option α) (k : Nat) (v : Option α) :
    Nat → Option α :=
  fun j => if j = k then v else f j

/-- Global state: the pending-restart table (`pending_tasks`), the
spawned tasks (indexed by a counter, mirroring task identity), the
in-progress `schedule_restart` calls, and the log output. -/
structure SysState where
  table : Nat → Option Nat
  tasks : Nat → Option TaskState
  taskCount : Nat
  calls : Nat → Option CallState
  callCount : Nat
  log : List String

/-- A new `schedule_restart` call begins (a `BusOff` event was consumed). -/
def startCall (s : SysState) (iface : CanInterfaceInfo) : SysState :=
  { s with
    calls := upd s.calls s.callCount (some ⟨iface, .started⟩)
    callCount := s.callCount + 1 }

/-- The read-lock containment check at the top of `schedule_restart`: if
the index already has an entry, return (silently — the library logs
nothing on this path); otherwise proceed towards the write lock. -/
def readCheck (s : SysState) (c : Nat) : SysState :=
  match s.calls c with
  | some call =>
    match call.phase with
    | .started =>
      if (s.table call.iface.idx).isSome then
        { s with calls := upd s.calls c (some ⟨call.iface, .finished false⟩) }
      else
        { s with calls := upd s.calls c (some ⟨call.iface, .passedReadCheck⟩) }
    | _ => s
  | none => s

/-- The write-lock section of `schedule_restart`: re-check the table (the
second check, closing the race between the read check and the insert); if
still vacant, log, spawn the delayed-restart task and insert its handle,
all while holding the write lock. -/
def writeSection (s : SysState) (c : Nat) : SysState :=
  match s.calls c with
  | some call =>
    match call.phase with
    | .passedReadCheck =>
      if (s.table call.iface.idx).isSome then
        { s with calls := upd s.calls c (some ⟨call.iface, .finished false⟩) }
      else
        { table := upd s.table call.iface.idx (some s.taskCount)
          tasks := upd s.tasks s.taskCount (some ⟨call.iface, .sleeping⟩)
          taskCount := s.taskCount + 1
          calls := upd s.calls c (some ⟨call.iface, .finished true⟩)
          callCount := s.callCount
          log := s.log ++ [call.iface.name ++ ": bus_off, scheduling restart"] }
    | _ => s
  | none => s

/-- A sleeping action wakes and, under the write lock, removes the entry
at its interface's index from the table — before the restart runs. -/
def taskRemoveEntry (s : SysState) (t : Nat) : SysState :=
  match s.tasks t with
  | some ts =>
    match ts.phase with
    | .sleeping =>
      { s with
        table := upd s.table ts.iface.idx none
        tasks := upd s.tasks t (some ⟨ts.iface, .removedEntry⟩) }
    | _ => s
  | none => s

/-- The action performs `do_restart` (only possible after its removal
step). -/
def taskDoRestart (s : SysState) (t : Nat) : SysState :=
  match s.tasks t with
  | some ts =>
    match ts.phase with
    | .removedEntry =>
      { s with
        tasks := upd s.tasks t (some ⟨ts.iface, .finishedRestart⟩)
        log := s.log ++ [ts.iface.name ++ ": restarting interface"] }
    | _ => s
  | none => s

/-- `JoinHandle::abort`: mark task `t` aborted (no-op on an absent id). -/
def abortTask (tasks : Nat → Option TaskState) (t : Nat) :
    Nat → Option TaskState :=
  match tasks t with
  | some ts => upd tasks t (some ⟨ts.iface, .aborted⟩)
  | none => tasks

/-- `cancel_restart` from `src/restart.rs`: under the write lock, remove
any entry for the interface's index and abort that task; logged only when
an entry was removed.  With no entry it is a no-op. -/
def cancel_restart (s : SysState) (iface : CanInterfaceInfo) : SysState :=
  match s.table iface.idx with
  | some t =>
    { s with
      table := upd s.table iface.idx none
      tasks := abortTask s.tasks t
      log := s.log ++ [iface.name ++ ": cancelled pending restart"] }
  | none => s

/-- `pending_count` from `src/restart.rs` would read the table size; we
state table facts pointwise instead. -/
def pendingAt (s : SysState) (i : Nat) : Bool := (s.table i).isSome

/-- Interleaving semantics: any call or task may take its next atomic
step at any time. -/
inductive Step : SysState → SysState → Prop where
  | startCall (s : SysState) (iface : CanInterfaceInfo) :
      Step s (startCall s iface)
  | readCheck (s : SysState) (c : Nat) : Step s (readCheck s c)
  | writeSection (s : SysState) (c : Nat) : Step s (writeSection s c)
  | taskRemoveEntry (s : SysState) (t : Nat) : Step s (taskRemoveEntry s t)
  | taskDoRestart (s : SysState) (t : Nat) : Step s (taskDoRestart s t)
  | cancelRestart (s : SysState) (iface : CanInterfaceInfo) :
      Step s (cancel_restart s iface)

/-- The manager as created by `RestartManager::new()`: empty table, no
tasks, no calls. -/
def initState : SysState :=
  { table := fun _ => none
    tasks := fun _ => none
    taskCount := 0
    calls := fun _ => none
    callCount := 0
    log := [] }

/-- States reachable from a fresh `RestartManager` by any interleaving of
events. -/
inductive Reachable : SysState → Prop where
  | init : Reachable initState
  | step {s s' : SysState} : Reachable s → Step s s' → Reachable s'

/-- Task `t` is an in-flight (scheduled, not yet fired or cancelled)
delayed-restart action for index `i`. -/
def SleepingAt (s : SysState) (t i : Nat) : Prop :=
  ∃ ts, s.tasks t = some ts ∧ ts.iface.idx = i ∧ ts.phase = .sleeping

/-- Every table entry points at an in-flight action for its own index. -/
def tableBacked (s : SysState) : Prop :=
  ∀ i t, s.table i = some t → SleepingAt s t i

/-- Per index there is at most one in-flight delayed-restart action. -/
def atMostOnePending (s : SysState) : Prop :=
  ∀ i t t', SleepingAt s t i → SleepingAt s t' i → t = t'

/-- The inductive invariant: task identifiers are bounded by the counter,
table entries point at in-flight actions, and every in-flight action has
its entry in the table at its index. -/
def Inv (s : SysState) : Prop :=
  (∀ t, s.taskCount ≤ t → s.tasks t = none) ∧
  tableBacked s ∧
  (∀ t ts, s.tasks t = some ts → ts.phase = .sleeping →
    s.table ts.iface.idx = some t)

/-- Shared example interface. -/
def exIface : CanInterfaceInfo := ⟨1, "can0"⟩

/-- Example trace: one `schedule_restart` call started on `exIface`. -/
def exS1 : SysState := startCall initState exIface

/-- Example trace: its read check passed (no pending entry). -/
def exS2 : SysState := readCheck exS1 0

/-- Example trace: its write section ran — task 0 spawned and inserted. -/
def exS3 : SysState := writeSection exS2 0

/-- Example trace: a second `schedule_restart` call started while task 0
is still pending. -/
def exS4c : SysState := startCall exS3 exIface

/-- Example trace: task 0 woke and removed its own entry. -/
def exS4 : SysState := taskRemoveEntry exS3 0

end Cansentinel

namespace Cansentinel

/-! ### Binary-search correctness -/

/-- In a `≤`-sorted list, `getD` is monotone on in-range indices. -/
theorem sorted_getD_le {l : List Nat} (hs : List.Sorted (· ≤ ·) l)
    {i j : Nat} (hij : i ≤ j) (hj : j < l.length) :
    l.getD i 0 ≤ l.getD j 0 := by
  rcases Nat.eq_or_lt_of_le hij with rfl | hlt
  · exact le_refl _
  · have hi : i < l.length := lt_trans hlt hj
    rw [List.getD_eq_getElem l 0 hi, List.getD_eq_getElem l 0 hj]
    exact List.pairwise_iff_getElem.mp hs i j hi hj hlt

/-- `bsGo` finds `x` in the range `[lo, hi)` exactly when some in-range
position holds `x`, provided the list is sorted. -/
theorem bsGo_eq_true_iff {l : List Nat} (hs : List.Sorted (· ≤ ·) l) (x : Nat) :
    ∀ n lo hi, hi - lo ≤ n → hi ≤ l.length →
      (bsGo l x lo hi = true ↔ ∃ j, lo ≤ j ∧ j < hi ∧ l.getD j 0 = x) := by
  intro n
  induction n with
  | zero =>
    intro lo hi hn hhi
    have hge : ¬ lo < hi := by omega
    rw [bsGo, dif_neg hge]
    constructor
    · intro h; exact absurd h (by simp)
    · rintro ⟨j, hj1, hj2, _⟩; omega
  | succ n ih =>
    intro lo hi hn hhi
    by_cases hlt : lo < hi
    · have hmid1 : lo ≤ (lo + hi) / 2 := by omega
      have hmid2 : (lo + hi) / 2 < hi := by omega
      have hmidlen : (lo + hi) / 2 < l.length := lt_of_lt_of_le hmid2 hhi
      rw [bsGo, dif_pos hlt]
      by_cases heq : l.getD ((lo + hi) / 2) 0 = x
      · rw [if_pos heq]
        simp only [true_iff]
        exact ⟨(lo + hi) / 2, hmid1, hmid2, heq⟩
      · rw [if_neg heq]
        by_cases hlo : l.getD ((lo + hi) / 2) 0 < x
        · rw [if_pos hlo]
          rw [ih ((lo + hi) / 2 + 1) hi (by omega) hhi]
          constructor
          · rintro ⟨j, hj1, hj2, hj3⟩
            exact ⟨j, by omega, hj2, hj3⟩
          · rintro ⟨j, hj1, hj2, hj3⟩
            refine ⟨j, ?_, hj2, hj3⟩
            by_contra hjle
            have hj : j ≤ (lo + hi) / 2 := by omega
            have := sorted_getD_le hs hj hmidlen
            omega
        · rw [if_neg hlo]
          rw [ih lo ((lo + hi) / 2) (by omega) (le_of_lt hmidlen)]
          constructor
          · rintro ⟨j, hj1, hj2, hj3⟩
            exact ⟨j, hj1, by omega, hj3⟩
          · rintro ⟨j, hj1, hj2, hj3⟩
            refine ⟨j, hj1, ?_, hj3⟩
            by_contra hjge
            have hj : (lo + hi) / 2 ≤ j := by omega
            have hjlen : j < l.length := lt_of_lt_of_le hj2 hhi
            have := sorted_getD_le hs hj hjlen
            omega
    · have hge : ¬ lo < hi := hlt
      rw [bsGo, dif_neg hge]
      constructor
      · intro h; exact absurd h (by simp)
      · rintro ⟨j, hj1, hj2, _⟩; omega

/-- On a sorted list, the binary search used by `monitor_netlink` decides
membership. -/
theorem binary_search_eq_true_iff_mem {l : List Nat}
    (hs : List.Sorted (· ≤ ·) l) (x : Nat) :
    binary_search l x = true ↔ x ∈ l := by
  rw [binary_search,
    bsGo_eq_true_iff hs x l.length 0 l.length (by omega) (le_refl _)]
  constructor
  · rintro ⟨j, -, hj2, hj3⟩
    rw [List.getD_eq_getElem l 0 hj2] at hj3
    exact hj3 ▸ List.getElem_mem hj2
  · intro hmem
    obtain ⟨j, hj, hje⟩ := List.getElem_of_mem hmem
    exact ⟨j, Nat.zero_le j, hj, by rw [List.getD_eq_getElem l 0 hj]; exact hje⟩

/-- The watch list is sorted. -/
theorem watchIndices_sorted (interfaces : List CanInterfaceInfo) :
    List.Sorted (· ≤ ·) (watchIndices interfaces) :=
  List.sorted_insertionSort (· ≤ ·) _

/-- The watch list holds exactly the indices of the given interfaces. -/
theorem mem_watchIndices (interfaces : List CanInterfaceInfo) (i : Nat) :
    i ∈ watchIndices interfaces ↔ i ∈ interfaces.map (fun j => j.idx) :=
  List.mem_insertionSort (· ≤ ·)

/-! ### C7 / C10 / C8 theorems -/

/-- C7: `monitor_netlink` emits no event for a message whose hardware type
is not 280 (`ARPHRD_CAN`) and none for a message whose index is outside
the watch set, and the binary search against the sorted watch list decides
membership in the supplied interface list. -/
theorem netlink_filtering (interfaces : List CanInterfaceInfo) (msg : Ifinfomsg) :
    (msg.ifi_type ≠ ARPHRD_CAN →
      processLinkMessage (watchIndices interfaces) msg = none) ∧
    (msg.ifi_index ∉ interfaces.map (fun j => j.idx) →
      processLinkMessage (watchIndices interfaces) msg = none) ∧
    (∀ i, binary_search (watchIndices interfaces) i = true ↔
      i ∈ interfaces.map (fun j => j.idx)) := by
  refine ⟨?_, ?_, ?_⟩
  · intro h
    have ht : (msg.ifi_type == ARPHRD_CAN) = false := by
      simpa using h
    simp [processLinkMessage, ht]
  · intro h
    have hb : ¬ binary_search (watchIndices interfaces) msg.ifi_index = true := by
      rw [binary_search_eq_true_iff_mem (watchIndices_sorted interfaces),
        mem_watchIndices]
      exact h
    simp [processLinkMessage, hb]
  · intro i
    rw [binary_search_eq_true_iff_mem (watchIndices_sorted interfaces),
      mem_watchIndices]

/-- Witness for C7: hardware type 1 is discarded even in `BusOff` state,
and the watch-set test agrees with membership at a concrete index. -/
theorem netlink_filtering_witness :
    processLinkMessage (watchIndices [⟨3, "can0"⟩])
      ⟨1, 3, some "can0", some .busOff⟩ = none ∧
    (binary_search (watchIndices [⟨3, "can0"⟩]) 3 = true ↔
      3 ∈ [CanInterfaceInfo.mk 3 "can0"].map (fun j => j.idx)) :=
  ⟨(netlink_filtering [⟨3, "can0"⟩] ⟨1, 3, some "can0", some .busOff⟩).1
      (by decide),
    (netlink_filtering [⟨3, "can0"⟩] ⟨1, 3, some "can0", some .busOff⟩).2.2 3⟩

/-- C10: with an empty watch list, `monitor_netlink` emits no event for
any incoming link message — the binary search over the empty sorted index
list fails for every index. -/
theorem empty_watch_list_no_events (msg : Ifinfomsg) :
    processLinkMessage (watchIndices []) msg = none := by
  have hb : binary_search (watchIndices []) msg.ifi_index = false := by
    rw [binary_search]
    show bsGo [] msg.ifi_index 0 0 = false
    rw [bsGo]
    simp
  simp [processLinkMessage, hb]

/-- C8: when the netlink subscription socket cannot be opened,
`monitor_netlink` logs the error and returns immediately — it emits no
event no matter what messages would have arrived — and no run of
`monitor_netlink` ever panics (every branch is `Except.ok`). -/
theorem netlink_connect_failure (interfaces : List CanInterfaceInfo)
    (msgs : List NlMsg) :
    monitor_netlink interfaces false msgs =
      .ok { events := [], logs := ["Failed to create netlink socket"] } ∧
    (∀ (connectOk : Bool) (more : List NlMsg),
      ∃ run, monitor_netlink interfaces connectOk more = .ok run) := by
  refine ⟨rfl, ?_⟩
  intro c more
  cases c
  · exact ⟨_, rfl⟩
  · exact ⟨_, rfl⟩

/-! ### C5 -/

/-- C5 counterexample: when the socket opens but configuring its filters
fails, the `continue` skips the sleep at the bottom of the loop — the
next open attempt starts with no backoff, refuting the claim that every
filter-configuration failure is followed by the 5-second wait. -/
theorem filter_failure_retries_immediately :
    (monitor_iteration ⟨1, "can0"⟩ true false []).backoffMs = none ∧
    (monitor_iteration ⟨1, "can0"⟩ true false []).backoffMs ≠ some 5000 ∧
    (monitor_iteration ⟨1, "can0"⟩ true false []).logs =
      ["Failed to configure socket filters for can0"] := by
  refine ⟨rfl, ?_, rfl⟩
  intro h
  simp [monitor_iteration] at h

/-- C5 amended: whenever opening the CAN error socket fails, the monitor
logs the failure and waits the fixed 5-second backoff before the next
open attempt (never giving up — the iteration always leads to another
attempt); whereas when filter configuration fails, it logs the failure
and retries the open immediately, with no backoff. -/
theorem error_monitor_retry_policy (interface : CanInterfaceInfo)
    (filterOk : Bool) (reads : List CanFrame) :
    (monitor_iteration interface false filterOk reads).backoffMs = some 5000 ∧
    (monitor_iteration interface false filterOk reads).logs =
      ["Failed to open error socket for " ++ interface.name,
       interface.name ++
         ": failed to open socket for monitoring. retrying in 5 seconds..."] ∧
    (monitor_iteration interface false filterOk reads).events = [] ∧
    (monitor_iteration interface true false reads).backoffMs = none ∧
    (monitor_iteration interface true false reads).logs =
      ["Failed to configure socket filters for " ++ interface.name] :=
  ⟨rfl, rfl, rfl, rfl, rfl⟩

/-! ### C4 / C9 theorems -/

/-- C4: the Link-State Monitor emits `BusOff` for state `BusOff` and
`Stopped` for state `Stopped` and nothing for any other decoded state;
the Error-Frame Monitor emits `BusOff` for a bus-off classification and
`Restart` for a restarted classification and nothing otherwise; hence a
`Restart` event never originates from the state-update source. -/
theorem source_trust_asymmetry (interface : CanInterfaceInfo) :
    netlinkStateEvent interface (some .busOff) =
      some (BusEvent.bus_off interface (.stateUpdate .busOff)) ∧
    netlinkStateEvent interface (some .stopped) =
      some (BusEvent.stopped interface (.stateUpdate .stopped)) ∧
    (∀ s : Option CanState, s ≠ some .busOff → s ≠ some .stopped →
      netlinkStateEvent interface s = none) ∧
    (∀ f : CanErrorFrame, f.into_error = .busOff →
      classifyErrorFrame interface f =
        some (BusEvent.bus_off interface (.errorFrame f))) ∧
    (∀ f : CanErrorFrame, f.into_error = .restarted →
      classifyErrorFrame interface f =
        some (BusEvent.restart interface (.errorFrame f))) ∧
    (∀ f : CanErrorFrame, f.into_error ≠ .busOff → f.into_error ≠ .restarted →
      classifyErrorFrame interface f = none) ∧
    (∀ (s : Option CanState) (e : BusEvent),
      netlinkStateEvent interface s = some e → e.event_type ≠ .restart) := by
  refine ⟨rfl, rfl, ?_, ?_, ?_, ?_, ?_⟩
  · intro s hb hs
    match s with
    | none => rfl
    | some .errorActive => rfl
    | some .errorWarning => rfl
    | some .errorPassive => rfl
    | some .busOff => exact absurd rfl hb
    | some .stopped => exact absurd rfl hs
    | some .sleeping => rfl
  · intro f hf
    simp [classifyErrorFrame, hf]
  · intro f hf
    simp [classifyErrorFrame, hf]
  · intro f hb hr
    unfold classifyErrorFrame
    match h : f.into_error with
    | .busOff => exact absurd h hb
    | .restarted => exact absurd h hr
    | .transmitTimeout => rfl
    | .lostArbitration _ => rfl
    | .controllerProblem _ => rfl
    | .protocolViolation _ _ => rfl
    | .transceiverError => rfl
    | .noAck => rfl
    | .busError => rfl
    | .unknown _ => rfl
  · intro s e he
    match s with
    | some .busOff =>
      simp only [netlinkStateEvent] at he
      cases he
      simp [BusEvent.bus_off]
    | some .stopped =>
      simp only [netlinkStateEvent] at he
      cases he
      simp [BusEvent.stopped]
    | none => simp [netlinkStateEvent] at he
    | some .errorActive => simp [netlinkStateEvent] at he
    | some .errorWarning => simp [netlinkStateEvent] at he
    | some .errorPassive => simp [netlinkStateEvent] at he
    | some .sleeping => simp [netlinkStateEvent] at he

/-- Witness for C4 at a concrete interface. -/
theorem source_trust_asymmetry_witness :
    netlinkStateEvent ⟨3, "can0"⟩ (some .busOff) =
      some (BusEvent.bus_off ⟨3, "can0"⟩ (.stateUpdate .busOff)) ∧
    netlinkStateEvent ⟨3, "can0"⟩ (some .errorActive) = none ∧
    classifyErrorFrame ⟨3, "can0"⟩ ⟨.restarted⟩ =
      some (BusEvent.restart ⟨3, "can0"⟩ (.errorFrame ⟨.restarted⟩)) := by
  refine ⟨(source_trust_asymmetry ⟨3, "can0"⟩).1, ?_, ?_⟩
  · exact (source_trust_asymmetry ⟨3, "can0"⟩).2.2.1 (some .errorActive)
      (by decide) (by decide)
  · exact (source_trust_asymmetry ⟨3, "can0"⟩).2.2.2.2.1 ⟨.restarted⟩ rfl

/-- C9: the default configuration's restart delay is 1000 milliseconds. -/
theorem config_default_bus_off_timeout :
    Config.default.bus_off_timeout = 1000 := rfl

/-! ### Restart Coordinator invariant -/

theorem inv_initState : Inv initState := by
  refine ⟨fun t _ => rfl, ?_, ?_⟩
  · intro i t h
    exact absurd h (by simp [initState])
  · intro t ts h
    exact absurd h (by simp [initState])

theorem inv_startCall {s : SysState} (h : Inv s) (iface : CanInterfaceInfo) :
    Inv (startCall s iface) := h

theorem inv_readCheck {s : SysState} (h : Inv s) (c : Nat) :
    Inv (readCheck s c) := by
  unfold readCheck
  cases hc : s.calls c with
  | none => exact h
  | some call =>
    obtain ⟨ifc, ph⟩ := call
    cases ph with
    | passedReadCheck => exact h
    | finished b => exact h
    | started =>
      dsimp only
      by_cases hdup : (s.table ifc.idx).isSome
      · rw [if_pos hdup]; exact h
      · rw [if_neg hdup]; exact h

theorem inv_writeSection {s : SysState} (h : Inv s) (c : Nat) :
    Inv (writeSection s c) := by
  obtain ⟨hcount, hback, hcomplete⟩ := h
  unfold writeSection
  cases hc : s.calls c with
  | none => exact ⟨hcount, hback, hcomplete⟩
  | some call =>
    obtain ⟨ifc, ph⟩ := call
    cases ph with
    | started => exact ⟨hcount, hback, hcomplete⟩
    | finished b => exact ⟨hcount, hback, hcomplete⟩
    | passedReadCheck =>
      dsimp only
      by_cases hdup : (s.table ifc.idx).isSome
      · rw [if_pos hdup]; exact ⟨hcount, hback, hcomplete⟩
      · rw [if_neg hdup]
        have hvac : s.table ifc.idx = none :=
          Option.not_isSome_iff_eq_none.mp hdup
        refine ⟨?_, ?_, ?_⟩
        · intro t ht
          dsimp only at ht ⊢
          simp only [upd]
          rw [if_neg (by omega)]
          exact hcount t (by omega)
        · intro i t hti
          dsimp only at hti ⊢
          simp only [upd] at hti
          by_cases hi : i = ifc.idx
          · rw [if_pos hi] at hti
            cases hti
            refine ⟨⟨ifc, .sleeping⟩, ?_, hi ▸ rfl, rfl⟩
            dsimp only
            simp [upd]
          · rw [if_neg hi] at hti
            obtain ⟨ts, hts, hidx, hph⟩ := hback i t hti
            have htne : t ≠ s.taskCount := by
              intro he
              rw [he, hcount s.taskCount (le_refl _)] at hts
              exact Option.noConfusion hts
            refine ⟨ts, ?_, hidx, hph⟩
            dsimp only
            simp only [upd]
            rw [if_neg htne]
            exact hts
        · intro t ts hts hph
          dsimp only at hts ⊢
          simp only [upd] at hts ⊢
          by_cases htc : t = s.taskCount
          · rw [if_pos htc] at hts
            cases hts
            rw [if_pos rfl, htc]
          · rw [if_neg htc] at hts
            have hold := hcomplete t ts hts hph
            have hine : ts.iface.idx ≠ ifc.idx := by
              intro he
              rw [he, hvac] at hold
              exact Option.noConfusion hold
            rw [if_neg hine]
            exact hold

theorem inv_taskRemoveEntry {s : SysState} (h : Inv s) (t : Nat) :
    Inv (taskRemoveEntry s t) := by
  obtain ⟨hcount, hback, hcomplete⟩ := h
  unfold taskRemoveEntry
  cases hts : s.tasks t with
  | none => exact ⟨hcount, hback, hcomplete⟩
  | some ts =>
    obtain ⟨ifc, ph⟩ := ts
    cases ph with
    | removedEntry => exact ⟨hcount, hback, hcomplete⟩
    | finishedRestart => exact ⟨hcount, hback, hcomplete⟩
    | aborted => exact ⟨hcount, hback, hcomplete⟩
    | sleeping =>
      dsimp only
      have howner : s.table ifc.idx = some t := hcomplete t ⟨ifc, .sleeping⟩ hts rfl
      have htlt : ¬ s.taskCount ≤ t := by
        intro hle
        rw [hcount t hle] at hts
        exact Option.noConfusion hts
      refine ⟨?_, ?_, ?_⟩
      · intro u hu
        dsimp only at hu ⊢
        simp only [upd]
        have hune : u ≠ t := by
          intro he
          exact htlt (he ▸ hu)
        rw [if_neg hune]
        exact hcount u hu
      · intro i u hui
        dsimp only at hui ⊢
        simp only [upd] at hui
        by_cases hi : i = ifc.idx
        · rw [if_pos hi] at hui
          exact Option.noConfusion hui
        · rw [if_neg hi] at hui
          obtain ⟨ts', hts', hidx', hph'⟩ := hback i u hui
          have hune : u ≠ t := by
            intro he
            rw [he, hts] at hts'
            cases hts'
            exact hi hidx'.symm
          refine ⟨ts', ?_, hidx', hph'⟩
          dsimp only
          simp only [upd]
          rw [if_neg hune]
          exact hts'
      · intro u ts' hts' hph'
        dsimp only at hts' ⊢
        simp only [upd] at hts' ⊢
        by_cases hut : u = t
        · rw [if_pos hut] at hts'
          cases hts'
          exact absurd hph' (by simp)
        · rw [if_neg hut] at hts'
          have hold := hcomplete u ts' hts' hph'
          have hine : ts'.iface.idx ≠ ifc.idx := by
            intro he
            rw [he, howner] at hold
            cases hold
            exact hut rfl
          rw [if_neg hine]
          exact hold

theorem inv_taskDoRestart {s : SysState} (h : Inv s) (t : Nat) :
    Inv (taskDoRestart s t) := by
  obtain ⟨hcount, hback, hcomplete⟩ := h
  unfold taskDoRestart
  cases hts : s.tasks t with
  | none => exact ⟨hcount, hback, hcomplete⟩
  | some ts =>
    obtain ⟨ifc, ph⟩ := ts
    cases ph with
    | sleeping => exact ⟨hcount, hback, hcomplete⟩
    | finishedRestart => exact ⟨hcount, hback, hcomplete⟩
    | aborted => exact ⟨hcount, hback, hcomplete⟩
    | removedEntry =>
      dsimp only
      have htlt : ¬ s.taskCount ≤ t := by
        intro hle
        rw [hcount t hle] at hts
        exact Option.noConfusion hts
      refine ⟨?_, ?_, ?_⟩
      · intro u hu
        dsimp only at hu ⊢
        simp only [upd]
        have hune : u ≠ t := by
          intro he
          exact htlt (he ▸ hu)
        rw [if_neg hune]
        exact hcount u hu
      · intro i u hui
        dsimp only at hui ⊢
        obtain ⟨ts', hts', hidx', hph'⟩ := hback i u hui
        have hune : u ≠ t := by
          intro he
          rw [he, hts] at hts'
          cases hts'
          exact TaskPhase.noConfusion hph'
        refine ⟨ts', ?_, hidx', hph'⟩
        dsimp only
        simp only [upd]
        rw [if_neg hune]
        exact hts'
      · intro u ts' hts' hph'
        dsimp only at hts' ⊢
        simp only [upd] at hts'
        by_cases hut : u = t
        · rw [if_pos hut] at hts'
          cases hts'
          exact absurd hph' (by simp)
        · rw [if_neg hut] at hts'
          exact hcomplete u ts' hts' hph'

theorem abortTask_eq {tasks : Nat → Option TaskState} {t : Nat}
    {ts : TaskState} (h : tasks t = some ts) :
    abortTask tasks t = upd tasks t (some ⟨ts.iface, .aborted⟩) := by
  unfold abortTask
  rw [h]

theorem inv_cancel_restart {s : SysState} (h : Inv s)
    (iface : CanInterfaceInfo) : Inv (cancel_restart s iface) := by
  obtain ⟨hcount, hback, hcomplete⟩ := h
  unfold cancel_restart
  cases ht : s.table iface.idx with
  | none => exact ⟨hcount, hback, hcomplete⟩
  | some t =>
    obtain ⟨ts0, hts0, hidx0, hph0⟩ := hback iface.idx t ht
    have htlt : ¬ s.taskCount ≤ t := by
      intro hle
      rw [hcount t hle] at hts0
      exact Option.noConfusion hts0
    dsimp only
    rw [abortTask_eq hts0]
    refine ⟨?_, ?_, ?_⟩
    · intro u hu
      dsimp only at hu ⊢
      simp only [upd]
      have hune : u ≠ t := by
        intro he
        exact htlt (he ▸ hu)
      rw [if_neg hune]
      exact hcount u hu
    · intro i u hui
      dsimp only at hui ⊢
      simp only [upd] at hui
      by_cases hi : i = iface.idx
      · rw [if_pos hi] at hui
        exact Option.noConfusion hui
      · rw [if_neg hi] at hui
        obtain ⟨ts', hts', hidx', hph'⟩ := hback i u hui
        have hune : u ≠ t := by
          intro he
          rw [he, hts0] at hts'
          cases hts'
          exact hi (hidx'.symm.trans hidx0)
        refine ⟨ts', ?_, hidx', hph'⟩
        dsimp only
        simp only [upd]
        rw [if_neg hune]
        exact hts'
    · intro u ts' hts' hph'
      dsimp only at hts' ⊢
      simp only [upd] at hts' ⊢
      by_cases hut : u = t
      · rw [if_pos hut] at hts'
        cases hts'
        exact absurd hph' (by simp)
      · rw [if_neg hut] at hts'
        have hold := hcomplete u ts' hts' hph'
        have hine : ts'.iface.idx ≠ iface.idx := by
          intro he
          rw [he, ht] at hold
          cases hold
          exact hut rfl
        rw [if_neg hine]
        exact hold

theorem inv_step {s s' : SysState} (h : Inv s) (hs : Step s s') : Inv s' := by
  cases hs with
  | startCall iface => exact inv_startCall h iface
  | readCheck c => exact inv_readCheck h c
  | writeSection c => exact inv_writeSection h c
  | taskRemoveEntry t => exact inv_taskRemoveEntry h t
  | taskDoRestart t => exact inv_taskDoRestart h t
  | cancelRestart iface => exact inv_cancel_restart h iface

theorem inv_reachable {s : SysState} (h : Reachable s) : Inv s := by
  induction h with
  | init => exact inv_initState
  | step _ hstep ih => exact inv_step ih hstep

/-! ### Example trace reachability -/

theorem exS3_reachable : Reachable exS3 :=
  Reachable.step
    (Reachable.step
      (Reachable.step Reachable.init (Step.startCall initState exIface))
      (Step.readCheck exS1 0))
    (Step.writeSection exS2 0)

theorem exS4_reachable : Reachable exS4 :=
  Reachable.step exS3_reachable (Step.taskRemoveEntry exS3 0)

theorem exS4c_reachable : Reachable exS4c :=
  Reachable.step exS3_reachable (Step.startCall exS3 exIface)

/-! ### C1 / C2 / C3 / C6 theorems -/

/-- C1: in every reachable state — any interleaving of BusOff-triggered
`schedule_restart` calls, delayed actions and `cancel_restart` calls,
including two concurrent `schedule_restart` calls for one index — every
table entry points at an in-flight delayed-restart action for its own
index, and per index at most one in-flight action exists; so of two
concurrent `schedule_restart` calls for one index at most one can have
inserted an entry and spawned an action that is still pending. -/
theorem at_most_one_pending_restart {s : SysState} (h : Reachable s) :
    tableBacked s ∧ atMostOnePending s := by
  have hInv := inv_reachable h
  refine ⟨hInv.2.1, ?_⟩
  intro i t t' h1 h2
  obtain ⟨ts, hts, hidx, hph⟩ := h1
  obtain ⟨ts', hts', hidx', hph'⟩ := h2
  have e1 := hInv.2.2 t ts hts hph
  have e2 := hInv.2.2 t' ts' hts' hph'
  rw [hidx] at e1
  rw [hidx'] at e2
  rw [e1] at e2
  exact Option.some.inj e2

/-- Witness for C1 at a concrete reachable state with one pending task. -/
theorem at_most_one_pending_restart_witness :
    tableBacked exS3 ∧ atMostOnePending exS3 :=
  at_most_one_pending_restart exS3_reachable

/-- C2: a delayed-restart action removes its own entry (while sleeping,
the entry at its index is exactly its own handle) strictly before the
restart runs; once it has reached the removal or restart phase, no table
entry anywhere is attributable to it. -/
theorem entry_removed_before_restart {s : SysState} (h : Reachable s)
    (t : Nat) (ts : TaskState) (ht : s.tasks t = some ts) :
    (ts.phase = .removedEntry ∨ ts.phase = .finishedRestart →
      ∀ i, s.table i ≠ some t) ∧
    (ts.phase = .sleeping → s.table ts.iface.idx = some t) := by
  have hInv := inv_reachable h
  constructor
  · intro hp i hcontra
    obtain ⟨ts', hts', hidx', hph'⟩ := hInv.2.1 i t hcontra
    rw [ht] at hts'
    cases hts'
    cases hp with
    | inl h1 => rw [h1] at hph'; exact TaskPhase.noConfusion hph'
    | inr h1 => rw [h1] at hph'; exact TaskPhase.noConfusion hph'
  · intro hp
    exact hInv.2.2 t ts ht hp

/-- Witness for C2: in the example trace, after task 0 performed its
removal step, the table no longer maps index 1 to it. -/
theorem entry_removed_before_restart_witness :
    exS4.tasks 0 = some ⟨exIface, .removedEntry⟩ ∧ exS4.table 1 ≠ some 0 :=
  ⟨rfl,
    (entry_removed_before_restart exS4_reachable 0 ⟨exIface, .removedEntry⟩
      rfl).1 (Or.inl rfl) 1⟩

/-- C3 counterexample: a `schedule_restart` call arriving while an entry
for the same index is pending is ignored — table, tasks and task counter
are untouched and the call finishes without inserting — but the library's
duplicate path appends *no* log line (the log is unchanged), refuting
"logs the duplicate". -/
theorem duplicate_busoff_unlogged_cex :
    (exS4c.table exIface.idx).isSome = true ∧
    (readCheck exS4c 1).log = exS4c.log ∧
    (readCheck exS4c 1).table = exS4c.table ∧
    (readCheck exS4c 1).tasks = exS4c.tasks ∧
    (readCheck exS4c 1).taskCount = exS4c.taskCount ∧
    (readCheck exS4c 1).calls 1 = some ⟨exIface, .finished false⟩ :=
  ⟨rfl, rfl, rfl, rfl, rfl, rfl⟩

/-- C3 amended: if `schedule_restart` runs while the table already holds
an entry for the interface's index, the call ignores the event — it
spawns no action, changes neither table nor tasks nor log (the duplicate
is *not* logged by the library), and just finishes; both the read-lock
check and the write-lock re-check behave this way, so two BusOff events
for one interface within the delay window yield exactly one restart
action, the first one scheduled. -/
theorem schedule_restart_duplicate_ignored (s : SysState) (c : Nat)
    (call : CallState) (hc : s.calls c = some call)
    (hdup : (s.table call.iface.idx).isSome = true) :
    (call.phase = .started →
      readCheck s c =
        { s with calls := upd s.calls c (some ⟨call.iface, .finished false⟩) }) ∧
    (call.phase = .passedReadCheck →
      writeSection s c =
        { s with calls := upd s.calls c (some ⟨call.iface, .finished false⟩) }) := by
  obtain ⟨ifc, ph⟩ := call
  constructor
  · intro hp
    cases hp
    unfold readCheck
    rw [hc]
    dsimp only
    rw [if_pos hdup]
  · intro hp
    cases hp
    unfold writeSection
    rw [hc]
    dsimp only
    rw [if_pos hdup]

/-- Witness for the amended C3: the duplicate call in the example trace
only flips its own program counter. -/
theorem schedule_restart_duplicate_ignored_witness :
    readCheck exS4c 1 =
      { exS4c with calls := upd exS4c.calls 1 (some ⟨exIface, .finished false⟩) } :=
  (schedule_restart_duplicate_ignored exS4c 1 ⟨exIface, .started⟩ rfl rfl).1 rfl

/-- `cancel_restart` is the identity when no entry exists for the index. -/
theorem cancel_restart_of_none {s : SysState} {iface : CanInterfaceInfo}
    (h : s.table iface.idx = none) : cancel_restart s iface = s := by
  unfold cancel_restart
  rw [h]

/-- After `cancel_restart`, no entry exists for the index. -/
theorem cancel_restart_table_none (s : SysState) (iface : CanInterfaceInfo) :
    (cancel_restart s iface).table iface.idx = none := by
  unfold cancel_restart
  cases ht : s.table iface.idx with
  | none => exact ht
  | some t =>
    dsimp only
    simp [upd]

/-- C6: `cancel_restart` removes (and aborts) the pending action for the
interface's index when one exists, touching no other index; it is a
no-op when none exists; and it is idempotent — cancelling twice, or
cancelling after the entry is already gone, equals a single cancel. -/
theorem cancel_restart_spec (s : SysState) (iface : CanInterfaceInfo) :
    (∀ t, s.table iface.idx = some t →
      (cancel_restart s iface).table iface.idx = none ∧
      (∀ j, j ≠ iface.idx → (cancel_restart s iface).table j = s.table j) ∧
      (cancel_restart s iface).tasks t =
        (s.tasks t).map (fun ts => ⟨ts.iface, .aborted⟩)) ∧
    (s.table iface.idx = none → cancel_restart s iface = s) ∧
    cancel_restart (cancel_restart s iface) iface = cancel_restart s iface := by
  refine ⟨?_, fun h => cancel_restart_of_none h,
    cancel_restart_of_none (cancel_restart_table_none s iface)⟩
  intro t ht
  unfold cancel_restart
  rw [ht]
  dsimp only
  refine ⟨by simp [upd], ?_, ?_⟩
  · intro j hj
    simp [upd, if_neg hj]
  · cases hts : s.tasks t with
    | none =>
      unfold abortTask
      rw [hts]
      dsimp only
      exact hts
    | some ts =>
      rw [abortTask_eq hts]
      simp [upd]

/-- Witness for C6 at a concrete state with a pending entry for index 1. -/
theorem cancel_restart_spec_witness :
    (cancel_restart exS3 exIface).table 1 = none ∧
    (cancel_restart exS3 exIface).tasks 0 =
      (exS3.tasks 0).map (fun ts => ⟨ts.iface, .aborted⟩) ∧
    cancel_restart (cancel_restart exS3 exIface) exIface =
      cancel_restart exS3 exIface :=
  ⟨((cancel_restart_spec exS3 exIface).1 0 rfl).1,
    ((cancel_restart_spec exS3 exIface).1 0 rfl).2.2,
    (cancel_restart_spec exS3 exIface).2.2⟩

end Cansentinel
